import Mathlib

/-
Verification of the query-translation and resampling pipeline of a
Prometheus-to-Wavefront proxy.

The pipeline is embedded shallowly:
  * Go float64 times and values are modelled as exact rationals (ℚ);
    Go's float64-to-int64 conversion truncates toward zero, modelled by
    ratTruncToZero.
  * Go maps with string keys are modelled as association lists; a Go map
    is key-nodup, so hypotheses of that form appear where a map is consumed.
  * Go's strconv.FormatFloat shortest-round-trip rendering is modelled
    abstractly by the canonical textual form of the rational value; every
    claim uses the rendering only as an opaque text function.
  * Go's sort.Sort contract (the output is a permutation ordered by the
    Less relation; stability is NOT guaranteed) is modelled by
    List.insertionSort over the non-strict order induced by Less.
-/

/-! ## Data model -/

structure PromQLQuery where
  Start : ℚ
  End : ℚ
  Step : ℚ
  Query : String
deriving Repr, DecidableEq

structure WavefrontQuery where
  Q : String
  S : String
  E : String
  G : String
deriving Repr, DecidableEq

structure WFTimeSeries where
  Label : String
  Host : String
  Tags : List (String × String)
  DataPoints : List (ℚ × ℚ)
deriving Repr, DecidableEq

structure WFQueryResponse where
  ErrType : String
  ErrMessage : String
  TimeSeries : List WFTimeSeries
deriving Repr, DecidableEq

structure PromQLTimeSeries where
  Metric : List (String × String)
  Values : List (ℚ × String)
deriving Repr, DecidableEq

structure PromQLData where
  Result : List PromQLTimeSeries
  ResultType : String
deriving Repr, DecidableEq

structure PromQLResponse where
  Data : PromQLData
  Status : String
deriving Repr, DecidableEq

structure PromQLError where
  Status : String
  ErrorType : String
  Err : String
deriving Repr, DecidableEq

/-- The form parameters of an incoming query_range request, as raw text. -/
structure RequestForm where
  startRaw : String
  endRaw : String
  stepRaw : String
  queryRaw : String
deriving Repr, DecidableEq

/-! ## Numeric helpers -/

/-- Go's conversion of a float to an integer discards the fraction
(truncation toward zero). -/
def ratTruncToZero (x : ℚ) : ℤ :=
  if 0 ≤ x then ⌊x⌋ else ⌈x⌉

/-- Decimal text of a numeric value (strconv.FormatFloat with shortest
round-trip rendering, modelled as the canonical text of the rational). -/
def floatToString (x : ℚ) : String :=
  toString x

theorem ratTruncToZero_of_nonneg {x : ℚ} (h : 0 ≤ x) :
    ratTruncToZero x = ⌊x⌋ := by
  simp [ratTruncToZero, h]

/-! ## TimeRangeTranslator (convertToWavefrontAndSkewEarlier) -/

/-- Translation of a promQL query to a wavefront query: start is pulled
15 seconds earlier (lead-in) and skewed, end gets one second added
(inclusive to exclusive) and skewed, granularity is hard-coded to one
second. Times are rendered in integral milliseconds via Go's
float-to-int truncation. The Go function always returns a nil error. -/
def convertToWavefrontAndSkewEarlier (skew : ℚ) (query : PromQLQuery) :
    WavefrontQuery :=
  { Q := query.Query
    S := toString (ratTruncToZero ((query.Start - 15 - skew) * 1000))
    E := toString (ratTruncToZero ((query.End + 1 - skew) * 1000))
    G := "s" }

/-! ## SkewCorrector (skewLater) -/

/-- Adds skew seconds to the timestamp of every data point of every
series of the backend response; everything else is unchanged. -/
def skewLater (skew : ℚ) (response : WFQueryResponse) : WFQueryResponse :=
  { response with
    TimeSeries := response.TimeSeries.map fun ts =>
      { ts with DataPoints := ts.DataPoints.map fun p => (p.1 + skew, p.2) } }

/-! ## RequestParser (extractPromQL) -/

def newBadDataPromQLError (s : String) : PromQLError :=
  { Status := "error", ErrorType := "bad_data", Err := s }

/-- Request parsing. The number parser (strconv.ParseFloat in the
source) is passed as a parameter; a parse failure is a none result. -/
def extractPromQL (parseNum : String → Option ℚ) (r : RequestForm) :
    Except PromQLError PromQLQuery :=
  match parseNum r.startRaw with
  | none => Except.error (newBadDataPromQLError
      ("invalid parameter \x27start\x27: cannot parse \"" ++ r.startRaw ++
        "\" to a valid timestamp"))
  | some s =>
    match parseNum r.endRaw with
    | none => Except.error (newBadDataPromQLError
        ("invalid parameter \x27end\x27: cannot parse \"" ++ r.endRaw ++
          "\" to a valid timestamp"))
    | some e =>
      match parseNum r.stepRaw with
      | none => Except.error (newBadDataPromQLError
          ("invalid parameter \x27step\x27: cannot parse \"" ++ r.stepRaw ++
            "\" to a valid duration"))
      | some st =>
        if st ≤ 0 then
          Except.error (newBadDataPromQLError
            ("zero or negative query resolution step widths are not accepted. Try a positive integer"))
        else if e < s then
          Except.error (newBadDataPromQLError
            ("end timestamp must not be before start time"))
        else
          Except.ok { Start := s, End := e, Step := st, Query := r.queryRaw }

/-! ## ResponseAssembler: label map (extractPromQLMetric) -/

/-- Go map assignment m[k] = v on an association list: overwrite the
entry if the key is present, append otherwise. -/
def mapInsert (m : List (String × String)) (k v : String) :
    List (String × String) :=
  if m.any (fun p => p.1 == k) then
    m.map (fun p => if p.1 == k then (k, v) else p)
  else
    m ++ [(k, v)]

/-- Builds the output label map of one series: __name__ from the label
when non-empty, instance from the host when non-empty, then every tag
entry (tags overwrite on key collision, in source order). -/
def extractPromQLMetric (t : WFTimeSeries) : List (String × String) :=
  let m0 := if t.Label ≠ "" then mapInsert [] "__name__" t.Label else []
  let m1 := if t.Host ≠ "" then mapInsert m0 "instance" t.Host else m0
  t.Tags.foldl (fun m kv => mapInsert m kv.1 kv.2) m1

/-! ## ResultResampler (extractPromQLData) -/

/-- Shared shape of the two lexicographic comparisons of the source:
compare element by element with a strict comparator; if one sequence is
a strict prefix of the other, the shorter one is smaller. -/
def lexListLt {α : Type} (ltb : α → α → Bool) : List α → List α → Bool
  | [], [] => false
  | [], _ :: _ => true
  | _ :: _, [] => false
  | a :: as, b :: bs =>
    if ltb a b then true else if ltb b a then false else lexListLt ltb as bs

/-- Lexicographic strict comparison of char lists; Go compares strings
byte-lexicographically, which on UTF-8 text agrees with code-point
order. -/
def charListLt (as bs : List Char) : Bool :=
  lexListLt (fun a b => decide (a < b)) as bs

/-- Go string comparison a < b. -/
def goStringLt (a b : String) : Bool := charListLt a.data b.data

/-- The inner cursor advance of extractPromQLData: while the next
sample exists and its timestamp is at or before the grid timestamp,
move the cursor right. -/
def advance (data : List (ℚ × ℚ)) (t : ℚ) (idx : Nat) : Nat :=
  if h : idx < data.length then
    if data[idx].1 ≤ t then advance data t (idx + 1) else idx
  else idx
termination_by data.length - idx

/-- The body of the grid loop of extractPromQLData: one iteration per
grid index i, carrying the cursor (indexPlus1) and the accumulated
output. -/
def resampleLoop (data : List (ℚ × ℚ)) (q : PromQLQuery) (resultSize : Nat)
    (i idx : Nat) (acc : List (ℚ × String)) : List (ℚ × String) :=
  if i < resultSize then
    let timestamp := q.Start + (i : ℚ) * q.Step
    let idx2 := advance data timestamp idx
    let cand := data.getD (idx2 - 1) (0, 0)
    let tdiff := timestamp - cand.1
    let acc2 := if 0 ≤ tdiff ∧ tdiff < q.Step then
        acc ++ [(timestamp, floatToString cand.2)]
      else acc
    resampleLoop data q resultSize (i + 1) idx2 acc2
  else acc
termination_by resultSize - i

/-- The resampler: an empty input yields an empty output; otherwise
resultSize = int((end-start)/step) + 1 grid points are scanned with a
forward-only cursor starting at indexPlus1 = 1. -/
def extractPromQLData (data : List (ℚ × ℚ)) (q : PromQLQuery) :
    List (ℚ × String) :=
  if data.isEmpty then []
  else
    resampleLoop data q
      ((ratTruncToZero ((q.End - q.Start) / q.Step) + 1).toNat) 0 1 []

/-! ## SeriesSorter (metricMapToSlice, sliceLess, sortTimeSeriesInPlace) -/

/-- Flattens a label map into key,value,key,value,... with keys in
ascending order (sort.Strings). -/
def metricMapToSlice (metric : List (String × String)) : List String :=
  let keys := List.insertionSort (fun a b => goStringLt b a = false)
    (metric.map Prod.fst)
  keys.foldl (fun r key => r ++ [key, ((metric.lookup key).getD "")]) []

/-- Element-by-element lexicographic comparison of two flattened key
sequences; a strict prefix sorts before the longer sequence. -/
def sliceLess (lhs rhs : List String) : Bool :=
  lexListLt goStringLt lhs rhs

/-- The order the series sort arranges the output in: a before b when
the comparator does not put b strictly below a. -/
def seriesOrder (a b : PromQLTimeSeries) : Prop :=
  sliceLess (metricMapToSlice b.Metric) (metricMapToSlice a.Metric) = false

instance : DecidableRel seriesOrder :=
  fun _ _ => inferInstanceAs (Decidable (_ = false))

/-- sort.Sort with the sliceLess comparator: the contract is a
permutation of the input ordered by the comparator (Go gives no
stability guarantee; the model uses an insertion sort to realize the
contract). -/
def sortTimeSeriesInPlace (timeSeries : List PromQLTimeSeries) :
    List PromQLTimeSeries :=
  List.insertionSort seriesOrder timeSeries

/-! ## ResponseAssembler (convertFromWavefront) -/

/-- Converts a backend response: an upstream error descriptor becomes a
bad_data error carrying the upstream message; otherwise one output
series per input series (label map + resampled values), sorted. -/
def convertFromWavefront (response : WFQueryResponse) (query : PromQLQuery) :
    Except PromQLError PromQLResponse :=
  if response.ErrType ≠ "" then
    Except.error (newBadDataPromQLError response.ErrMessage)
  else
    Except.ok
      { Status := "success"
        Data :=
          { ResultType := "matrix"
            Result := sortTimeSeriesInPlace
              (response.TimeSeries.map fun ts =>
                { Metric := extractPromQLMetric ts
                  Values := extractPromQLData ts.DataPoints query }) } }

/-! ## Spec-side definitions (from the words of the specification) -/

/-- Raw samples ascending by timestamp. -/
def tsAscending (data : List (ℚ × ℚ)) : Prop :=
  data.Pairwise (fun a b => a.1 ≤ b.1)

/-- Modelled from the spec: the number of grid timestamps,
N = floor((end - start) / step) + 1. -/
def gridCount (q : PromQLQuery) : Nat :=
  (⌊(q.End - q.Start) / q.Step⌋).toNat + 1

/-- Modelled from the spec: the last raw sample whose timestamp is at
or before t. -/
def lastSampleLE (data : List (ℚ × ℚ)) (t : ℚ) : Option (ℚ × ℚ) :=
  (data.filter (fun s => decide (s.1 ≤ t))).getLast?

/-- Modelled from the spec: the optional output pair at grid index i —
emitted exactly when a candidate exists and its staleness is in
[0, step). -/
def gridFun (data : List (ℚ × ℚ)) (q : PromQLQuery) (i : Nat) :
    Option (ℚ × String) :=
  match lastSampleLE data (q.Start + (i : ℚ) * q.Step) with
  | none => none
  | some cand =>
    if 0 ≤ q.Start + (i : ℚ) * q.Step - cand.1 ∧
        q.Start + (i : ℚ) * q.Step - cand.1 < q.Step then
      some (q.Start + (i : ℚ) * q.Step, floatToString cand.2)
    else none

/-- Modelled from the spec: the resampled sequence is the emitted pairs
over grid indices 0 .. N-1 in order. -/
def resampleSpec (data : List (ℚ × ℚ)) (q : PromQLQuery) :
    List (ℚ × String) :=
  (List.range (gridCount q)).filterMap (gridFun data q)

/-! ## Claim C2: the time-range translator -/

/-- C2 counterexample: the claim says startMs = floor((start-15-skew)*1000)
for every query; at start = 43/3 (with skew 0) the argument is -2000/3,
whose floor is -667, while the code truncates toward zero and produces
-666. -/
theorem convertToWavefront_floor_counterexample :
    (convertToWavefrontAndSkewEarlier 0
        { Start := 43/3, End := 100, Step := 1, Query := "" }).S ≠
      toString (⌊(((43/3 : ℚ) - 15 - 0) * 1000)⌋) := by
  have h1 : ((43/3 : ℚ) - 15 - 0) * 1000 = -2000/3 := by norm_num
  have h2 : ratTruncToZero (-2000/3 : ℚ) = -666 := by
    rw [ratTruncToZero, if_neg (by norm_num)]
    rw [Int.ceil_eq_iff]
    constructor <;> norm_num
  have h3 : (⌊(-2000/3 : ℚ)⌋ : ℤ) = -667 := by
    rw [Int.floor_eq_iff]
    constructor <;> norm_num
  simp only [convertToWavefrontAndSkewEarlier, h1, h2, h3]
  decide

/-- C2 amended: the translator copies the query text, always uses the
one-second granularity token, and renders startMs and endMs as the
truncation toward zero of (start-15-skew)*1000 and (end+1-skew)*1000;
truncation agrees with the claimed floor whenever the argument is
non-negative. The translation is a total function (it never fails). -/
theorem convertToWavefront_characterization :
    ∀ (skew : ℚ) (q : PromQLQuery),
    (convertToWavefrontAndSkewEarlier skew q).Q = q.Query ∧
    (convertToWavefrontAndSkewEarlier skew q).G = "s" ∧
    (convertToWavefrontAndSkewEarlier skew q).S =
      toString (ratTruncToZero ((q.Start - 15 - skew) * 1000)) ∧
    (convertToWavefrontAndSkewEarlier skew q).E =
      toString (ratTruncToZero ((q.End + 1 - skew) * 1000)) ∧
    (0 ≤ q.Start - 15 - skew →
      (convertToWavefrontAndSkewEarlier skew q).S =
        toString (⌊(q.Start - 15 - skew) * 1000⌋)) ∧
    (0 ≤ q.End + 1 - skew →
      (convertToWavefrontAndSkewEarlier skew q).E =
        toString (⌊(q.End + 1 - skew) * 1000⌋)) := by
  intro skew q
  refine ⟨rfl, rfl, rfl, rfl, fun h => ?_, fun h => ?_⟩
  · have hx : (0:ℚ) ≤ (q.Start - 15 - skew) * 1000 :=
      mul_nonneg h (by norm_num)
    simp only [convertToWavefrontAndSkewEarlier, ratTruncToZero_of_nonneg hx]
  · have hx : (0:ℚ) ≤ (q.End + 1 - skew) * 1000 :=
      mul_nonneg h (by norm_num)
    simp only [convertToWavefrontAndSkewEarlier, ratTruncToZero_of_nonneg hx]

/-- C2 witness: the spec scenario start=100, end=130, step=10, skew=0
yields startMs 85000, endMs 131000, granularity token s. -/
theorem convertToWavefront_characterization_witness :
    (0:ℚ) ≤ (100:ℚ) - 15 - 0 ∧ (0:ℚ) ≤ (130:ℚ) + 1 - 0 ∧
    (convertToWavefrontAndSkewEarlier 0
        { Start := 100, End := 130, Step := 10, Query := "up" }).S =
      toString (⌊(((100:ℚ) - 15 - 0) * 1000)⌋) ∧
    (convertToWavefrontAndSkewEarlier 0
        { Start := 100, End := 130, Step := 10, Query := "up" }).E =
      toString (⌊(((130:ℚ) + 1 - 0) * 1000)⌋) ∧
    (convertToWavefrontAndSkewEarlier 0
        { Start := 100, End := 130, Step := 10, Query := "up" }).G = "s" ∧
    (convertToWavefrontAndSkewEarlier 0
        { Start := 100, End := 130, Step := 10, Query := "up" }).S = "85000" ∧
    (convertToWavefrontAndSkewEarlier 0
        { Start := 100, End := 130, Step := 10, Query := "up" }).E = "131000" := by
  refine ⟨by norm_num, by norm_num,
    (convertToWavefront_characterization 0 _).2.2.2.2.1 (by norm_num),
    (convertToWavefront_characterization 0 _).2.2.2.2.2 (by norm_num),
    (convertToWavefront_characterization 0 _).2.1, ?_, ?_⟩
  · have h1 : ((100:ℚ) - 15 - 0) * 1000 = 85000 := by norm_num
    have h2 : ratTruncToZero (85000 : ℚ) = 85000 := by
      rw [ratTruncToZero_of_nonneg (by norm_num)]
      norm_num
    simp only [convertToWavefrontAndSkewEarlier, h1, h2]
    rfl
  · have h1 : ((130:ℚ) + 1 - 0) * 1000 = 131000 := by norm_num
    have h2 : ratTruncToZero (131000 : ℚ) = 131000 := by
      rw [ratTruncToZero_of_nonneg (by norm_num)]
      norm_num
    simp only [convertToWavefrontAndSkewEarlier, h1, h2]
    rfl

/-! ## Claim C7: the skew corrector -/

/-- C7: skewLater adds skew to the timestamp of every data point of
every series and changes nothing else — values, labels, hosts and tags
are untouched, errors fields are untouched, and at skew 0 the response
is returned identical. -/
theorem skewLater_characterization :
    ∀ (skew : ℚ) (response : WFQueryResponse),
    (skewLater skew response).ErrType = response.ErrType ∧
    (skewLater skew response).ErrMessage = response.ErrMessage ∧
    List.Forall₂ (fun ts ts' =>
        ts'.Label = ts.Label ∧ ts'.Host = ts.Host ∧ ts'.Tags = ts.Tags ∧
        List.Forall₂ (fun p p' => p'.1 = p.1 + skew ∧ p'.2 = p.2)
          ts.DataPoints ts'.DataPoints)
      response.TimeSeries (skewLater skew response).TimeSeries ∧
    skewLater 0 response = response := by
  intro skew r
  refine ⟨rfl, rfl, ?_, ?_⟩
  · show List.Forall₂ _ r.TimeSeries (r.TimeSeries.map _)
    rw [List.forall₂_map_right_iff]
    refine List.forall₂_same.mpr fun ts _ => ⟨rfl, rfl, rfl, ?_⟩
    show List.Forall₂ _ ts.DataPoints (ts.DataPoints.map _)
    rw [List.forall₂_map_right_iff]
    exact List.forall₂_same.mpr fun p _ => ⟨rfl, rfl⟩
  · simp [skewLater]

/-! ## Claim C3: the request parser -/

/-- C3: extractPromQL errors exactly when start, end or step does not
parse, or step <= 0, or end < start; every error is status error with
errorType bad_data; each error carries the source message (naming the
offending field and its raw text for parse failures); on success the
Query carries the parsed numbers and the query text verbatim. -/
theorem extractPromQL_characterization :
    ∀ (parseNum : String → Option ℚ) (r : RequestForm),
    ((∃ err, extractPromQL parseNum r = Except.error err) ↔
      parseNum r.startRaw = none ∨ parseNum r.endRaw = none ∨
      parseNum r.stepRaw = none ∨
      (∃ st, parseNum r.stepRaw = some st ∧ st ≤ 0) ∨
      (∃ s e, parseNum r.startRaw = some s ∧ parseNum r.endRaw = some e ∧
        e < s)) ∧
    (∀ err, extractPromQL parseNum r = Except.error err →
      err.Status = "error" ∧ err.ErrorType = "bad_data") ∧
    (∀ q, extractPromQL parseNum r = Except.ok q →
      parseNum r.startRaw = some q.Start ∧ parseNum r.endRaw = some q.End ∧
      parseNum r.stepRaw = some q.Step ∧ q.Query = r.queryRaw ∧
      0 < q.Step ∧ q.Start ≤ q.End) ∧
    (parseNum r.startRaw = none →
      extractPromQL parseNum r = Except.error (newBadDataPromQLError
        ("invalid parameter \x27start\x27: cannot parse \"" ++ r.startRaw ++
          "\" to a valid timestamp"))) ∧
    (∀ s, parseNum r.startRaw = some s → parseNum r.endRaw = none →
      extractPromQL parseNum r = Except.error (newBadDataPromQLError
        ("invalid parameter \x27end\x27: cannot parse \"" ++ r.endRaw ++
          "\" to a valid timestamp"))) ∧
    (∀ s e, parseNum r.startRaw = some s → parseNum r.endRaw = some e →
      parseNum r.stepRaw = none →
      extractPromQL parseNum r = Except.error (newBadDataPromQLError
        ("invalid parameter \x27step\x27: cannot parse \"" ++ r.stepRaw ++
          "\" to a valid duration"))) ∧
    (∀ s e st, parseNum r.startRaw = some s → parseNum r.endRaw = some e →
      parseNum r.stepRaw = some st → st ≤ 0 →
      extractPromQL parseNum r = Except.error (newBadDataPromQLError
        ("zero or negative query resolution step widths are not accepted. Try a positive integer"))) ∧
    (∀ s e st, parseNum r.startRaw = some s → parseNum r.endRaw = some e →
      parseNum r.stepRaw = some st → 0 < st → e < s →
      extractPromQL parseNum r = Except.error (newBadDataPromQLError
        ("end timestamp must not be before start time"))) := by
  intro p r
  refine ⟨⟨?_, ?_⟩, ?_, ?_, ?_, ?_, ?_, ?_, ?_⟩
  · rintro ⟨err, herr⟩
    rcases hS : p r.startRaw with _ | s
    · exact Or.inl rfl
    rcases hE : p r.endRaw with _ | e
    · exact Or.inr (Or.inl rfl)
    rcases hT : p r.stepRaw with _ | st
    · exact Or.inr (Or.inr (Or.inl rfl))
    by_cases hst : st ≤ 0
    · exact Or.inr (Or.inr (Or.inr (Or.inl ⟨st, rfl, hst⟩)))
    by_cases hes : e < s
    · exact Or.inr (Or.inr (Or.inr (Or.inr ⟨s, e, rfl, rfl, hes⟩)))
    · simp [extractPromQL, hS, hE, hT, hst, hes] at herr
  · intro h
    rcases hS : p r.startRaw with _ | s
    · exact ⟨_, by simp only [extractPromQL, hS]; rfl⟩
    rcases hE : p r.endRaw with _ | e
    · exact ⟨_, by simp only [extractPromQL, hS, hE]; rfl⟩
    rcases hT : p r.stepRaw with _ | st
    · exact ⟨_, by simp only [extractPromQL, hS, hE, hT]; rfl⟩
    by_cases hst : st ≤ 0
    · exact ⟨_, by simp only [extractPromQL, hS, hE, hT, if_pos hst]; rfl⟩
    by_cases hes : e < s
    · exact ⟨_, by
        simp only [extractPromQL, hS, hE, hT, if_neg hst, if_pos hes]; rfl⟩
    · exfalso
      simp only [hS, hE, hT] at h
      rcases h with h | h | h | ⟨st', h, hle⟩ | ⟨s', e', hs', he', hlt⟩
      · exact Option.noConfusion h
      · exact Option.noConfusion h
      · exact Option.noConfusion h
      · cases Option.some.inj h; exact hst hle
      · cases Option.some.inj hs'; cases Option.some.inj he'; exact hes hlt
  · intro err herr
    rcases hS : p r.startRaw with _ | s
    · simp only [extractPromQL, hS, Except.error.injEq] at herr
      subst herr; exact ⟨rfl, rfl⟩
    rcases hE : p r.endRaw with _ | e
    · simp only [extractPromQL, hS, hE, Except.error.injEq] at herr
      subst herr; exact ⟨rfl, rfl⟩
    rcases hT : p r.stepRaw with _ | st
    · simp only [extractPromQL, hS, hE, hT, Except.error.injEq] at herr
      subst herr; exact ⟨rfl, rfl⟩
    by_cases hst : st ≤ 0
    · simp only [extractPromQL, hS, hE, hT, if_pos hst,
        Except.error.injEq] at herr
      subst herr; exact ⟨rfl, rfl⟩
    by_cases hes : e < s
    · simp only [extractPromQL, hS, hE, hT, if_neg hst, if_pos hes,
        Except.error.injEq] at herr
      subst herr; exact ⟨rfl, rfl⟩
    · simp [extractPromQL, hS, hE, hT, hst, hes] at herr
  · intro q hq
    rcases hS : p r.startRaw with _ | s
    · simp [extractPromQL, hS] at hq
    rcases hE : p r.endRaw with _ | e
    · simp [extractPromQL, hS, hE] at hq
    rcases hT : p r.stepRaw with _ | st
    · simp [extractPromQL, hS, hE, hT] at hq
    by_cases hst : st ≤ 0
    · simp [extractPromQL, hS, hE, hT, hst] at hq
    by_cases hes : e < s
    · simp [extractPromQL, hS, hE, hT, hst, hes] at hq
    · simp only [extractPromQL, hS, hE, hT, if_neg hst, if_neg hes,
        Except.ok.injEq] at hq
      subst hq
      exact ⟨rfl, rfl, rfl, rfl, lt_of_not_le hst, le_of_not_lt hes⟩
  · intro hS
    simp only [extractPromQL, hS]
  · intro s hS hE
    simp only [extractPromQL, hS, hE]
  · intro s e hS hE hT
    simp only [extractPromQL, hS, hE, hT]
  · intro s e st hS hE hT hst
    simp only [extractPromQL, hS, hE, hT, if_pos hst]
  · intro s e st hS hE hT hst hes
    simp only [extractPromQL, hS, hE, hT, if_neg (not_le.mpr hst),
      if_pos hes]

/-- C3 witness: with a parser that rejects everything and a form whose
start text is x, the parser fails and produces the bad_data error
naming the start field and its raw text. -/
theorem extractPromQL_characterization_witness :
    ((fun _ : String => (none : Option ℚ)) "x" = none) ∧
    (∃ err, extractPromQL (fun _ => none)
      { startRaw := "x", endRaw := "1", stepRaw := "1", queryRaw := "up" } =
        Except.error err) ∧
    extractPromQL (fun _ => none)
      { startRaw := "x", endRaw := "1", stepRaw := "1", queryRaw := "up" } =
      Except.error (newBadDataPromQLError
        ("invalid parameter \x27start\x27: cannot parse \"x\" to a valid timestamp")) := by
  refine ⟨rfl, ?_, ?_⟩
  · exact (extractPromQL_characterization (fun _ => none)
      { startRaw := "x", endRaw := "1", stepRaw := "1", queryRaw := "up" }).1.mpr
      (Or.inl rfl)
  · exact (extractPromQL_characterization (fun _ => none)
      { startRaw := "x", endRaw := "1", stepRaw := "1", queryRaw := "up" }).2.2.2.1
      rfl

/-! ## Claim C6: the assembled label map -/

theorem lookup_eq_none_of_not_mem_keys {k : String} :
    ∀ {l : List (String × String)}, k ∉ l.map Prod.fst →
    l.lookup k = none := by
  intro l
  induction l with
  | nil => intro _; rfl
  | cons p rest ih =>
    obtain ⟨pk, pv⟩ := p
    intro h
    simp only [List.map_cons, List.mem_cons, not_or] at h
    rw [List.lookup_cons, beq_false_of_ne h.1]
    exact ih h.2

theorem lookup_map_overwrite (k v : String) :
    ∀ m : List (String × String), m.any (fun p => p.1 == k) = true →
    (m.map (fun p => if p.1 == k then (k, v) else p)).lookup k = some v := by
  intro m
  induction m with
  | nil => intro h; simp at h
  | cons p rest ih =>
    obtain ⟨pk, pv⟩ := p
    intro h
    rw [List.map_cons]
    by_cases hp : (pk == k) = true
    · rw [if_pos hp, List.lookup_cons]
      simp
    · have hp' : (pk == k) = false := by simpa using hp
      rw [if_neg hp, List.lookup_cons]
      have hk : (k == pk) = false :=
        beq_false_of_ne (Ne.symm (beq_eq_false_iff_ne.mp hp'))
      rw [hk]
      simp only [List.any_cons, hp', Bool.false_or] at h
      exact ih h

theorem lookup_map_preserve (k v k' : String) (hne : k' ≠ k) :
    ∀ m : List (String × String),
    (m.map (fun p => if p.1 == k then (k, v) else p)).lookup k' =
      m.lookup k' := by
  intro m
  induction m with
  | nil => rfl
  | cons p rest ih =>
    obtain ⟨pk, pv⟩ := p
    rw [List.map_cons]
    by_cases hp : (pk == k) = true
    · have hpk : pk = k := by simpa using hp
      rw [if_pos hp, List.lookup_cons, List.lookup_cons,
        beq_false_of_ne hne, beq_false_of_ne (hpk ▸ hne)]
      exact ih
    · rw [if_neg hp, List.lookup_cons, List.lookup_cons]
      by_cases hkp : (k' == pk) = true
      · rw [hkp]
      · have h1 : (k' == pk) = false := by simpa using hkp
        rw [h1]
        exact ih

theorem lookup_append_single_self (k v : String) :
    ∀ m : List (String × String), m.any (fun p => p.1 == k) = false →
    (m ++ [(k, v)]).lookup k = some v := by
  intro m
  induction m with
  | nil => simp [List.lookup_cons]
  | cons p rest ih =>
    obtain ⟨pk, pv⟩ := p
    intro h
    simp only [List.any_cons, Bool.or_eq_false_iff] at h
    have hk : (k == pk) = false :=
      beq_false_of_ne (Ne.symm (beq_eq_false_iff_ne.mp h.1))
    rw [List.cons_append, List.lookup_cons, hk]
    exact ih h.2

theorem lookup_append_single_ne (k v k' : String) (hne : k' ≠ k) :
    ∀ m : List (String × String),
    (m ++ [(k, v)]).lookup k' = m.lookup k' := by
  intro m
  induction m with
  | nil => simp [List.lookup_cons, beq_false_of_ne hne]
  | cons p rest ih =>
    obtain ⟨pk, pv⟩ := p
    rw [List.cons_append, List.lookup_cons, List.lookup_cons]
    by_cases hkp : (k' == pk) = true
    · rw [hkp]
    · have h1 : (k' == pk) = false := by simpa using hkp
      rw [h1]
      exact ih

theorem lookup_mapInsert_self (m : List (String × String)) (k v : String) :
    (mapInsert m k v).lookup k = some v := by
  unfold mapInsert
  by_cases h : m.any (fun p => p.1 == k) = true
  · rw [if_pos h]
    exact lookup_map_overwrite k v m h
  · have h' : m.any (fun p => p.1 == k) = false := by
      rwa [Bool.not_eq_true] at h
    rw [if_neg h]
    exact lookup_append_single_self k v m h'

theorem lookup_mapInsert_ne (m : List (String × String)) (k v k' : String)
    (hne : k' ≠ k) :
    (mapInsert m k v).lookup k' = m.lookup k' := by
  unfold mapInsert
  by_cases h : m.any (fun p => p.1 == k) = true
  · rw [if_pos h]
    exact lookup_map_preserve k v k' hne m
  · rw [if_neg h]
    exact lookup_append_single_ne k v k' hne m

theorem lookup_foldl_mapInsert :
    ∀ (tags : List (String × String)), (tags.map Prod.fst).Nodup →
    ∀ (m : List (String × String)) (k : String),
    ((tags.foldl (fun m kv => mapInsert m kv.1 kv.2) m).lookup k) =
      (tags.lookup k).or (m.lookup k) := by
  intro tags
  induction tags with
  | nil => intro _ m k; simp [List.lookup]
  | cons kv rest ih =>
    obtain ⟨k0, v0⟩ := kv
    intro hnd m k
    simp only [List.map_cons, List.nodup_cons] at hnd
    obtain ⟨hk0, hrest⟩ := hnd
    rw [List.foldl_cons, ih hrest, List.lookup_cons]
    by_cases hkk : k = k0
    · subst hkk
      have hnone : rest.lookup k = none :=
        lookup_eq_none_of_not_mem_keys hk0
      rw [hnone, Option.none_or, lookup_mapInsert_self]
      simp
    · rw [beq_false_of_ne hkk, lookup_mapInsert_ne _ _ _ _ hkk]

/-- C6: the assembled label map, read through lookup: a tag entry always
wins; failing a tag with that key, __name__ maps to the label exactly
when the label is non-empty and the instance key maps to the host
exactly when the host is non-empty; no other key is mapped. -/
theorem extractPromQLMetric_characterization :
    ∀ (t : WFTimeSeries), (t.Tags.map Prod.fst).Nodup →
    ∀ k, (extractPromQLMetric t).lookup k =
      (t.Tags.lookup k).or
        (if k = "__name__" ∧ t.Label ≠ "" then some t.Label
         else if k = "instance" ∧ t.Host ≠ "" then some t.Host
         else none) := by
  intro t hnd k
  unfold extractPromQLMetric
  rw [lookup_foldl_mapInsert t.Tags hnd]
  congr 1
  by_cases hH : t.Host ≠ ""
  · rw [if_pos hH]
    by_cases hL : t.Label ≠ ""
    · rw [if_pos hL]
      by_cases h2 : k = "instance"
      · subst h2
        rw [lookup_mapInsert_self, if_neg
            (fun hc : ("instance" : String) = "__name__" ∧ t.Label ≠ "" =>
              absurd hc.1 (by decide)),
          if_pos ⟨rfl, hH⟩]
      · rw [lookup_mapInsert_ne _ _ _ _ h2]
        by_cases h1 : k = "__name__"
        · subst h1
          rw [lookup_mapInsert_self, if_pos ⟨rfl, hL⟩]
        · rw [lookup_mapInsert_ne _ _ _ _ h1, if_neg (fun hc => h1 hc.1),
            if_neg (fun hc => h2 hc.1)]
          rfl
    · rw [if_neg hL]
      by_cases h2 : k = "instance"
      · subst h2
        rw [lookup_mapInsert_self, if_neg (fun hc => absurd hc.2 hL),
          if_pos ⟨rfl, hH⟩]
      · rw [lookup_mapInsert_ne _ _ _ _ h2,
          if_neg (fun hc => absurd hc.2 hL), if_neg (fun hc => h2 hc.1)]
        rfl
  · rw [if_neg hH]
    by_cases hL : t.Label ≠ ""
    · rw [if_pos hL]
      by_cases h1 : k = "__name__"
      · subst h1
        rw [lookup_mapInsert_self, if_pos ⟨rfl, hL⟩]
      · rw [lookup_mapInsert_ne _ _ _ _ h1, if_neg (fun hc => h1 hc.1),
          if_neg (fun hc => absurd hc.2 hH)]
        rfl
    · rw [if_neg hL, if_neg (fun hc => absurd hc.2 hL),
        if_neg (fun hc => absurd hc.2 hH)]
      rfl

/-- C6 witness: a series with label cpu, host h1 and tags
[(instance, h2), (x, y)] — the instance tag beats the synthesized host
entry, __name__ comes from the label, and the plain tag is present. -/
theorem extractPromQLMetric_characterization_witness :
    (([("instance", "h2"), ("x", "y")] : List (String × String)).map
      Prod.fst).Nodup ∧
    (extractPromQLMetric
        { Label := "cpu", Host := "h1",
          Tags := [("instance", "h2"), ("x", "y")],
          DataPoints := [] }).lookup "instance" =
      ((([("instance", "h2"), ("x", "y")] : List (String × String)).lookup
          "instance").or
        (if ("instance" : String) = "__name__" ∧ ("cpu" : String) ≠ "" then
          some ("cpu")
         else if ("instance" : String) = "instance" ∧ ("h1" : String) ≠ ""
           then some ("h1")
         else none)) ∧
    (extractPromQLMetric
        { Label := "cpu", Host := "h1",
          Tags := [("instance", "h2"), ("x", "y")],
          DataPoints := [] }).lookup "instance" = some ("h2") ∧
    (extractPromQLMetric
        { Label := "cpu", Host := "h1",
          Tags := [("instance", "h2"), ("x", "y")],
          DataPoints := [] }).lookup "__name__" = some ("cpu") ∧
    (extractPromQLMetric
        { Label := "cpu", Host := "h1",
          Tags := [("instance", "h2"), ("x", "y")],
          DataPoints := [] }).lookup "x" = some ("y") := by
  refine ⟨by decide, ?_, by decide, by decide, by decide⟩
  exact extractPromQLMetric_characterization
    { Label := "cpu", Host := "h1",
      Tags := [("instance", "h2"), ("x", "y")], DataPoints := [] }
    (by decide) "instance"

/-! ## Claim C4: the series order -/

theorem lexListLt_asymm {α : Type} (ltb : α → α → Bool)
    (hasymm : ∀ a b, ltb a b = true → ltb b a = false) :
    ∀ as bs, lexListLt ltb as bs = true → lexListLt ltb bs as = false := by
  intro as
  induction as with
  | nil =>
    intro bs h
    cases bs with
    | nil => simp [lexListLt] at h
    | cons b bs => simp [lexListLt]
  | cons a as ih =>
    intro bs h
    cases bs with
    | nil => simp [lexListLt] at h
    | cons b bs =>
      simp only [lexListLt] at h ⊢
      by_cases hab : ltb a b = true
      · simp [hab, hasymm a b hab]
      · have hab' : ltb a b = false := by simpa using hab
        by_cases hba : ltb b a = true
        · simp [hab', hba] at h
        · have hba' : ltb b a = false := by simpa using hba
          simp only [hab', hba', Bool.false_eq_true, if_false] at h ⊢
          exact ih bs h

theorem lexListLt_trans {α : Type} (ltb : α → α → Bool)
    (htrans : ∀ a b c, ltb a b = true → ltb b c = true → ltb a c = true)
    (heq : ∀ a b, ltb a b = false → ltb b a = false → a = b) :
    ∀ as bs cs, lexListLt ltb as bs = true → lexListLt ltb bs cs = true →
    lexListLt ltb as cs = true := by
  intro as
  induction as with
  | nil =>
    intro bs cs h1 h2
    cases bs with
    | nil => simp [lexListLt] at h1
    | cons b bs =>
      cases cs with
      | nil => simp [lexListLt] at h2
      | cons c cs => simp [lexListLt]
  | cons a as ih =>
    intro bs cs h1 h2
    cases bs with
    | nil => simp [lexListLt] at h1
    | cons b bs =>
      cases cs with
      | nil => simp [lexListLt] at h2
      | cons c cs =>
        simp only [lexListLt] at h1 h2 ⊢
        by_cases hab : ltb a b = true
        · by_cases hbc : ltb b c = true
          · simp [htrans a b c hab hbc]
          · have hbc' : ltb b c = false := by simpa using hbc
            by_cases hcb : ltb c b = true
            · simp [hbc', hcb] at h2
            · have hcb' : ltb c b = false := by simpa using hcb
              have hbceq : b = c := heq b c hbc' hcb'
              subst hbceq
              simp [hab]
        · have hab' : ltb a b = false := by simpa using hab
          by_cases hba : ltb b a = true
          · simp [hab', hba] at h1
          · have hba' : ltb b a = false := by simpa using hba
            have habeq : a = b := heq a b hab' hba'
            subst habeq
            simp only [hab'] at h1
            by_cases hac : ltb a c = true
            · simp [hac]
            · have hac' : ltb a c = false := by simpa using hac
              by_cases hca : ltb c a = true
              · simp [hac', hca] at h2
              · have hca' : ltb c a = false := by simpa using hca
                simp only [hac', hca', Bool.false_eq_true, if_false] at h2 ⊢
                simp only [Bool.false_eq_true, if_false] at h1
                exact ih bs cs h1 h2

theorem lexListLt_eq_of_not_lt {α : Type} (ltb : α → α → Bool)
    (heq : ∀ a b, ltb a b = false → ltb b a = false → a = b) :
    ∀ as bs, lexListLt ltb as bs = false → lexListLt ltb bs as = false →
    as = bs := by
  intro as
  induction as with
  | nil =>
    intro bs h1 h2
    cases bs with
    | nil => rfl
    | cons b bs => simp [lexListLt] at h1
  | cons a as ih =>
    intro bs h1 h2
    cases bs with
    | nil => simp [lexListLt] at h2
    | cons b bs =>
      simp only [lexListLt] at h1 h2
      by_cases hab : ltb a b = true
      · simp [hab] at h1
      · have hab' : ltb a b = false := by simpa using hab
        by_cases hba : ltb b a = true
        · simp [hab', hba] at h2
        · have hba' : ltb b a = false := by simpa using hba
          have habeq : a = b := heq a b hab' hba'
          subst habeq
          simp only [hab', Bool.false_eq_true, if_false] at h1 h2
          rw [ih bs h1 h2]

theorem charLtb_asymm :
    ∀ a b : Char, decide (a < b) = true → decide (b < a) = false :=
  fun _ _ h => decide_eq_false (lt_asymm (of_decide_eq_true h))

theorem charLtb_trans :
    ∀ a b c : Char, decide (a < b) = true → decide (b < c) = true →
    decide (a < c) = true :=
  fun _ _ _ h1 h2 =>
    decide_eq_true (lt_trans (of_decide_eq_true h1) (of_decide_eq_true h2))

theorem charLtb_eq :
    ∀ a b : Char, decide (a < b) = false → decide (b < a) = false →
    a = b :=
  fun _ _ h1 h2 =>
    le_antisymm (not_lt.mp (decide_eq_false_iff_not.mp h2))
      (not_lt.mp (decide_eq_false_iff_not.mp h1))

theorem goStringLt_asymm :
    ∀ a b : String, goStringLt a b = true → goStringLt b a = false :=
  fun a b h => lexListLt_asymm _ charLtb_asymm a.data b.data h

theorem goStringLt_trans :
    ∀ a b c : String, goStringLt a b = true → goStringLt b c = true →
    goStringLt a c = true :=
  fun a b c h1 h2 =>
    lexListLt_trans _ charLtb_trans charLtb_eq a.data b.data c.data h1 h2

theorem goStringLt_eq :
    ∀ a b : String, goStringLt a b = false → goStringLt b a = false →
    a = b := by
  intro a b h1 h2
  have h : a.data = b.data :=
    lexListLt_eq_of_not_lt _ charLtb_eq a.data b.data h1 h2
  cases a; cases b; exact congrArg String.mk h

theorem sliceLess_asymm :
    ∀ as bs, sliceLess as bs = true → sliceLess bs as = false :=
  fun as bs h => lexListLt_asymm _ goStringLt_asymm as bs h

theorem sliceLess_trans :
    ∀ as bs cs, sliceLess as bs = true → sliceLess bs cs = true →
    sliceLess as cs = true :=
  fun as bs cs h1 h2 =>
    lexListLt_trans _ goStringLt_trans goStringLt_eq as bs cs h1 h2

theorem sliceLess_eq_of_not_lt :
    ∀ as bs, sliceLess as bs = false → sliceLess bs as = false → as = bs :=
  fun as bs h1 h2 => lexListLt_eq_of_not_lt _ goStringLt_eq as bs h1 h2

instance : IsTotal PromQLTimeSeries seriesOrder := by
  constructor
  intro a b
  unfold seriesOrder
  by_cases h : sliceLess (metricMapToSlice b.Metric)
      (metricMapToSlice a.Metric) = true
  · exact Or.inr (sliceLess_asymm _ _ h)
  · exact Or.inl (by simpa using h)

instance : IsTrans PromQLTimeSeries seriesOrder := by
  constructor
  intro a b c hab hbc
  unfold seriesOrder at hab hbc ⊢
  by_contra hc
  have hc' : sliceLess (metricMapToSlice c.Metric)
      (metricMapToSlice a.Metric) = true := by simpa using hc
  by_cases h1 : sliceLess (metricMapToSlice a.Metric)
      (metricMapToSlice b.Metric) = true
  · have h2 := sliceLess_trans _ _ _ hc' h1
    rw [h2] at hbc
    exact Bool.noConfusion hbc
  · have h1' : sliceLess (metricMapToSlice a.Metric)
        (metricMapToSlice b.Metric) = false := by simpa using h1
    have heq := sliceLess_eq_of_not_lt _ _ h1' hab
    rw [← heq] at hbc
    rw [hc'] at hbc
    exact Bool.noConfusion hbc

/-- C4: after sorting, the series are in ascending order under the
comparator — for any two series in output order, the later one is not
strictly below the earlier one under sliceLess on the flattened label
maps — and the output is a permutation of the input; in particular the
map with name a sorts strictly before the map with name b, and a
one-entry map sorts strictly before its two-entry extension (prefix
rule). -/
theorem sortTimeSeriesInPlace_sorted :
    ∀ l : List PromQLTimeSeries,
    (sortTimeSeriesInPlace l).Pairwise (fun a b =>
      sliceLess (metricMapToSlice b.Metric) (metricMapToSlice a.Metric) =
        false) ∧
    (sortTimeSeriesInPlace l).Perm l ∧
    sliceLess (metricMapToSlice [("__name__", "a")])
      (metricMapToSlice [("__name__", "b")]) = true ∧
    sliceLess (metricMapToSlice [("a", "1")])
      (metricMapToSlice [("a", "1"), ("b", "2")]) = true := by
  intro l
  exact ⟨List.sorted_insertionSort seriesOrder l,
    List.perm_insertionSort seriesOrder l, by decide, by decide⟩

/-! ## Claim C9: all-or-nothing response conversion -/

/-- C9: convertFromWavefront errors exactly when the backend ErrType is
non-empty, carrying status error, errorType bad_data and the backend
message verbatim; otherwise it succeeds with status success, resultType
matrix and exactly one output series per input series (the result is a
permutation of the per-series conversions, so it has the input
length). -/
theorem convertFromWavefront_characterization :
    ∀ (response : WFQueryResponse) (query : PromQLQuery),
    (response.ErrType ≠ "" →
      convertFromWavefront response query = Except.error
        { Status := "error", ErrorType := "bad_data",
          Err := response.ErrMessage }) ∧
    (response.ErrType = "" →
      ∃ out, convertFromWavefront response query = Except.ok out ∧
        out.Status = "success" ∧
        out.Data.ResultType = "matrix" ∧
        out.Data.Result.Perm
          (response.TimeSeries.map fun ts =>
            { Metric := extractPromQLMetric ts
              Values := extractPromQLData ts.DataPoints query }) ∧
        out.Data.Result.length = response.TimeSeries.length) ∧
    (∀ err, convertFromWavefront response query = Except.error err →
      response.ErrType ≠ "") := by
  intro r q
  refine ⟨?_, ?_, ?_⟩
  · intro h
    unfold convertFromWavefront
    rw [if_pos h]
    rfl
  · intro h
    have h' : ¬(r.ErrType ≠ "") := by simp [h]
    refine ⟨_, by unfold convertFromWavefront; rw [if_neg h'], rfl, rfl,
      List.perm_insertionSort _ _, ?_⟩
    show (sortTimeSeriesInPlace _).length = _
    unfold sortTimeSeriesInPlace
    rw [(List.perm_insertionSort seriesOrder _).length_eq, List.length_map]
  · intro err herr heq
    have h' : ¬(r.ErrType ≠ "") := by simp [heq]
    unfold convertFromWavefront at herr
    rw [if_neg h'] at herr
    exact Except.noConfusion herr

/-- C9 witness: a backend error response becomes the bad_data error
payload with the upstream message; an error-free empty response becomes
the complete success matrix. -/
theorem convertFromWavefront_characterization_witness :
    ("err" : String) ≠ "" ∧
    convertFromWavefront
        { ErrType := "err", ErrMessage := "boom", TimeSeries := [] }
        { Start := 100, End := 110, Step := 5, Query := "up" } =
      Except.error
        { Status := "error", ErrorType := "bad_data", Err := "boom" } ∧
    (∃ out, convertFromWavefront
        { ErrType := "", ErrMessage := "", TimeSeries := [] }
        { Start := 100, End := 110, Step := 5, Query := "up" } =
          Except.ok out ∧
      out.Status = "success" ∧
      out.Data.ResultType = "matrix" ∧
      out.Data.Result.Perm
        (({ ErrType := "", ErrMessage := "",
            TimeSeries := [] } : WFQueryResponse).TimeSeries.map fun ts =>
          { Metric := extractPromQLMetric ts
            Values := extractPromQLData ts.DataPoints
              { Start := 100, End := 110, Step := 5, Query := "up" } }) ∧
      out.Data.Result.length =
        ({ ErrType := "", ErrMessage := "",
            TimeSeries := [] } : WFQueryResponse).TimeSeries.length) := by
  refine ⟨by decide, ?_, ?_⟩
  · exact (convertFromWavefront_characterization
      { ErrType := "err", ErrMessage := "boom", TimeSeries := [] }
      { Start := 100, End := 110, Step := 5, Query := "up" }).1 (by decide)
  · exact (convertFromWavefront_characterization
      { ErrType := "", ErrMessage := "", TimeSeries := [] }
      { Start := 100, End := 110, Step := 5, Query := "up" }).2.1 rfl

/-! ## Resampler: cursor / candidate-count correspondence -/

/-- The number of raw samples with timestamp at or before t, counted
from the front (for ascending data this is all of them). -/
def cntLE (data : List (ℚ × ℚ)) (t : ℚ) : Nat :=
  (data.takeWhile (fun s => decide (s.1 ≤ t))).length

theorem cntLE_cons (a : ℚ × ℚ) (l : List (ℚ × ℚ)) (t : ℚ) :
    cntLE (a :: l) t = if a.1 ≤ t then cntLE l t + 1 else 0 := by
  unfold cntLE
  rw [List.takeWhile_cons]
  by_cases h : a.1 ≤ t
  · simp [h]
  · simp [h]

theorem cntLE_le_length (data : List (ℚ × ℚ)) (t : ℚ) :
    cntLE data t ≤ data.length :=
  (List.takeWhile_sublist _).length_le

theorem cntLE_mono (data : List (ℚ × ℚ)) {t t' : ℚ} (h : t ≤ t') :
    cntLE data t ≤ cntLE data t' := by
  induction data with
  | nil => exact le_rfl
  | cons a l ih =>
    rw [cntLE_cons, cntLE_cons]
    by_cases ha : a.1 ≤ t
    · rw [if_pos ha, if_pos (le_trans ha h)]
      omega
    · rw [if_neg ha]
      exact Nat.zero_le _

theorem fst_getElem_le_iff (t : ℚ) :
    ∀ (data : List (ℚ × ℚ)), tsAscending data →
    ∀ j (hj : j < data.length),
    ((data.get ⟨j, hj⟩).1 ≤ t ↔ j < cntLE data t) := by
  intro data
  induction data with
  | nil => intro _ j hj; simp at hj
  | cons a l ih =>
    intro hs j hj
    have hs' := List.pairwise_cons.mp hs
    cases j with
    | zero =>
      show (a.1 ≤ t ↔ 0 < cntLE (a :: l) t)
      rw [cntLE_cons]
      by_cases ha : a.1 ≤ t
      · simp [ha]
      · simp [ha]
    | succ j =>
      show ((l.get ⟨j, _⟩).1 ≤ t ↔ j + 1 < cntLE (a :: l) t)
      rw [cntLE_cons]
      by_cases ha : a.1 ≤ t
      · rw [if_pos ha]
        rw [ih hs'.2 j (by simpa using hj)]
        omega
      · rw [if_neg ha]
        simp only [Nat.not_lt_zero, iff_false]
        intro hle
        exact ha (le_trans (hs'.1 _ (l.get_mem _ _)) hle)

theorem advance_eq (t : ℚ) (data : List (ℚ × ℚ)) (hs : tsAscending data) :
    ∀ idx, advance data t idx = max idx (cntLE data t) := by
  have H : ∀ fuel idx, data.length - idx ≤ fuel →
      advance data t idx = max idx (cntLE data t) := by
    intro fuel
    induction fuel with
    | zero =>
      intro idx hf
      have hlen : data.length ≤ idx := by omega
      rw [advance, dif_neg (by omega)]
      have := cntLE_le_length data t
      omega
    | succ n ihn =>
      intro idx hf
      rw [advance]
      by_cases hlt : idx < data.length
      · rw [dif_pos hlt]
        by_cases hle : data[idx].1 ≤ t
        · rw [if_pos hle]
          have hcnt : idx < cntLE data t :=
            (fst_getElem_le_iff t data hs idx hlt).mp hle
          rw [ihn (idx + 1) (by omega)]
          omega
        · rw [if_neg hle]
          have hcnt : ¬ idx < cntLE data t := fun hh =>
            hle ((fst_getElem_le_iff t data hs idx hlt).mpr hh)
          omega
      · rw [dif_neg hlt]
        have := cntLE_le_length data t
        omega
  exact fun idx => H data.length idx (by omega)

theorem filter_eq_takeWhile_of_ascending (t : ℚ) :
    ∀ (data : List (ℚ × ℚ)), tsAscending data →
    data.filter (fun s => decide (s.1 ≤ t)) =
      data.takeWhile (fun s => decide (s.1 ≤ t)) := by
  intro data
  induction data with
  | nil => intro _; rfl
  | cons a l ih =>
    intro hs
    have hs' := List.pairwise_cons.mp hs
    rw [List.filter_cons, List.takeWhile_cons]
    by_cases hd : decide (a.1 ≤ t) = true
    · rw [if_pos hd, if_pos hd, ih hs'.2]
    · rw [if_neg hd, if_neg hd, List.filter_eq_nil_iff]
      intro b hb
      have ha : ¬ a.1 ≤ t := by simpa using hd
      simp only [decide_eq_true_eq]
      exact fun hble => ha (le_trans (hs'.1 b hb) hble)

theorem takeWhile_eq_take {α : Type} (p : α → Bool) :
    ∀ l : List α, l.takeWhile p = l.take (l.takeWhile p).length := by
  intro l
  induction l with
  | nil => rfl
  | cons a l ih =>
    rw [List.takeWhile_cons]
    by_cases h : p a = true
    · rw [if_pos h]
      simp only [List.length_cons, List.take_succ_cons]
      rw [← ih]
    · rw [if_neg h]
      rfl

theorem lastSampleLE_eq_none {data : List (ℚ × ℚ)} {t : ℚ}
    (hs : tsAscending data) (h : cntLE data t = 0) :
    lastSampleLE data t = none := by
  unfold lastSampleLE
  rw [filter_eq_takeWhile_of_ascending t data hs,
    List.length_eq_zero.mp h]
  rfl

theorem lastSampleLE_eq_some {data : List (ℚ × ℚ)} {t : ℚ}
    (hs : tsAscending data) (h : cntLE data t ≠ 0)
    (hlt : cntLE data t - 1 < data.length) :
    lastSampleLE data t = some (data.get ⟨cntLE data t - 1, hlt⟩) := by
  unfold lastSampleLE
  rw [filter_eq_takeWhile_of_ascending t data hs, takeWhile_eq_take,
    List.getLast?_eq_getElem?]
  have hX : (data.takeWhile (fun s => decide (s.1 ≤ t))).length =
      cntLE data t := rfl
  rw [hX, List.length_take]
  have hle : cntLE data t ≤ data.length := cntLE_le_length data t
  have hmin : cntLE data t ⊓ data.length = cntLE data t :=
    min_eq_left hle
  rw [hmin, List.getElem?_take, if_pos (by omega),
    List.getElem?_eq_getElem hlt]
  rfl

theorem resampleLoop_stop (data : List (ℚ × ℚ)) (q : PromQLQuery)
    (N i idx : Nat) (acc : List (ℚ × String)) (h : ¬ i < N) :
    resampleLoop data q N i idx acc = acc := by
  rw [resampleLoop, if_neg h]

theorem resampleLoop_step (data : List (ℚ × ℚ)) (q : PromQLQuery)
    (N i idx : Nat) (acc : List (ℚ × String)) (h : i < N) :
    resampleLoop data q N i idx acc =
      resampleLoop data q N (i + 1)
        (advance data (q.Start + (i : ℚ) * q.Step) idx)
        (if 0 ≤ (q.Start + (i : ℚ) * q.Step) -
              (data.getD
                (advance data (q.Start + (i : ℚ) * q.Step) idx - 1)
                (0, 0)).1 ∧
            (q.Start + (i : ℚ) * q.Step) -
              (data.getD
                (advance data (q.Start + (i : ℚ) * q.Step) idx - 1)
                (0, 0)).1 < q.Step then
          acc ++ [((q.Start + (i : ℚ) * q.Step),
            floatToString
              (data.getD
                (advance data (q.Start + (i : ℚ) * q.Step) idx - 1)
                (0, 0)).2)]
        else acc) := by
  rw [resampleLoop, if_pos h]

theorem resampleLoop_eq_spec (data : List (ℚ × ℚ)) (q : PromQLQuery)
    (hs : tsAscending data) (hne : data ≠ []) (hstep : 0 < q.Step)
    (N : Nat) :
    ∀ (k i idx : Nat) (acc : List (ℚ × String)), N - i ≤ k → 1 ≤ idx →
    idx ≤ max 1 (cntLE data (q.Start + (i : ℚ) * q.Step)) →
    resampleLoop data q N i idx acc =
      acc ++ (List.range' i (N - i)).filterMap (gridFun data q) := by
  intro k
  induction k with
  | zero =>
    intro i idx acc hk _ _
    have hiN : ¬ i < N := by omega
    rw [resampleLoop_stop data q N i idx acc hiN]
    have h0 : N - i = 0 := by omega
    rw [h0]
    simp
  | succ n ih =>
    intro i idx acc hk h1 h2
    by_cases hiN : i < N
    · have hmono : cntLE data (q.Start + (i : ℚ) * q.Step) ≤
          cntLE data (q.Start + ((i + 1 : ℕ) : ℚ) * q.Step) := by
        apply cntLE_mono
        have hcast : ((i + 1 : ℕ) : ℚ) = (i : ℚ) + 1 := by push_cast; ring
        rw [hcast]
        have hsum : ((i : ℚ) + 1) * q.Step = (i : ℚ) * q.Step + q.Step := by
          ring
        rw [hsum]
        linarith
      rw [resampleLoop_step data q N i idx acc hiN,
        advance_eq _ data hs idx]
      have hN1 : N - i = (N - (i + 1)) + 1 := by omega
      rw [hN1, List.range'_succ, List.filterMap_cons]
      rcases Nat.eq_zero_or_pos
          (cntLE data (q.Start + (i : ℚ) * q.Step)) with hc | hcpos
      · have hmax : max idx (cntLE data (q.Start + (i : ℚ) * q.Step)) = 1 := by
          omega
        rw [hmax]
        have hlen : 0 < data.length := List.length_pos.mpr hne
        have hget : data.getD (1 - 1) (0, 0) = data.get ⟨0, hlen⟩ := by
          rw [List.getD_eq_getElem?_getD, List.getElem?_eq_getElem hlen]
          rfl
        rw [hget]
        have hnotle : ¬ (data.get ⟨0, hlen⟩).1 ≤
            q.Start + (i : ℚ) * q.Step := by
          rw [fst_getElem_le_iff _ data hs 0 hlen]
          omega
        rw [if_neg (fun hcond => hnotle (sub_nonneg.mp hcond.1))]
        have hgi : gridFun data q i = none := by
          unfold gridFun
          rw [lastSampleLE_eq_none hs hc]
        simp only [hgi]
        exact ih (i + 1) 1 acc (by omega) le_rfl (le_max_left _ _)
      · have hmax : max idx (cntLE data (q.Start + (i : ℚ) * q.Step)) =
            cntLE data (q.Start + (i : ℚ) * q.Step) := by
          omega
        rw [hmax]
        have hlt : cntLE data (q.Start + (i : ℚ) * q.Step) - 1 <
            data.length := by
          have := cntLE_le_length data (q.Start + (i : ℚ) * q.Step)
          omega
        have hget : data.getD
            (cntLE data (q.Start + (i : ℚ) * q.Step) - 1) (0, 0) =
            data.get ⟨cntLE data (q.Start + (i : ℚ) * q.Step) - 1, hlt⟩ := by
          rw [List.getD_eq_getElem?_getD, List.getElem?_eq_getElem hlt]
          rfl
        rw [hget]
        have hcle : (data.get
            ⟨cntLE data (q.Start + (i : ℚ) * q.Step) - 1, hlt⟩).1 ≤
            q.Start + (i : ℚ) * q.Step := by
          rw [fst_getElem_le_iff _ data hs _ hlt]
          omega
        have hsome : lastSampleLE data (q.Start + (i : ℚ) * q.Step) =
            some (data.get
              ⟨cntLE data (q.Start + (i : ℚ) * q.Step) - 1, hlt⟩) :=
          lastSampleLE_eq_some hs (by omega) hlt
        by_cases hstale : (q.Start + (i : ℚ) * q.Step) -
            (data.get
              ⟨cntLE data (q.Start + (i : ℚ) * q.Step) - 1, hlt⟩).1 <
            q.Step
        · rw [if_pos ⟨sub_nonneg.mpr hcle, hstale⟩]
          have hgi : gridFun data q i =
              some (q.Start + (i : ℚ) * q.Step,
                floatToString (data.get
                  ⟨cntLE data (q.Start + (i : ℚ) * q.Step) - 1,
                    hlt⟩).2) := by
            simp only [gridFun, hsome]
            rw [if_pos ⟨sub_nonneg.mpr hcle, hstale⟩]
          simp only [hgi]
          rw [ih (i + 1) (cntLE data (q.Start + (i : ℚ) * q.Step))
            (acc ++ [(q.Start + (i : ℚ) * q.Step,
              floatToString (data.get
                ⟨cntLE data (q.Start + (i : ℚ) * q.Step) - 1, hlt⟩).2)])
            (by omega) (by omega) (by omega)]
          simp [List.append_assoc]
        · rw [if_neg (fun hcond => hstale hcond.2)]
          have hgi : gridFun data q i = none := by
            simp only [gridFun, hsome]
            rw [if_neg (fun hcond => hstale hcond.2)]
          simp only [hgi]
          exact ih (i + 1) (cntLE data (q.Start + (i : ℚ) * q.Step)) acc
            (by omega) (by omega) (by omega)
    · rw [resampleLoop_stop data q N i idx acc hiN]
      have h0 : N - i = 0 := by omega
      rw [h0]
      simp

theorem gridFun_nil (q : PromQLQuery) (i : Nat) : gridFun [] q i = none :=
  rfl

theorem resampleSpec_nil (q : PromQLQuery) : resampleSpec [] q = [] := by
  unfold resampleSpec
  exact List.filterMap_eq_nil_iff.mpr (fun i _ => gridFun_nil q i)

/-- Shared refinement fact: on ascending data and a well-formed query,
the cursor implementation produces exactly the spec-side grid. -/
theorem extract_eq_resampleSpec (data : List (ℚ × ℚ)) (q : PromQLQuery)
    (hs : tsAscending data) (hstep : 0 < q.Step)
    (hrange : q.Start ≤ q.End) :
    extractPromQLData data q = resampleSpec data q := by
  by_cases hne : data = []
  · subst hne
    rw [resampleSpec_nil]
    rfl
  · unfold extractPromQLData
    rw [if_neg (fun h => hne (List.isEmpty_iff.mp h))]
    have hD : (0 : ℚ) ≤ (q.End - q.Start) / q.Step :=
      div_nonneg (sub_nonneg.mpr hrange) hstep.le
    have hNeq : ((ratTruncToZero ((q.End - q.Start) / q.Step)) + 1).toNat =
        gridCount q := by
      rw [ratTruncToZero_of_nonneg hD]
      unfold gridCount
      have hfl : 0 ≤ ⌊(q.End - q.Start) / q.Step⌋ := Int.floor_nonneg.mpr hD
      omega
    rw [hNeq]
    rw [resampleLoop_eq_spec data q hs hne hstep (gridCount q)
      (gridCount q) 0 1 [] (by omega) le_rfl (le_max_left _ _)]
    unfold resampleSpec
    rw [Nat.sub_zero, List.range_eq_range', List.nil_append]

/-! ## Claim C1: the resampler refines its specification -/

/-- C1: for step > 0, end >= start and raw samples ascending by
timestamp, the resampler output is exactly the spec grid: pairs
(t_i, text(v)) over t_i = start + i*step for i < floor((end-start)/step)+1,
where the candidate is the last sample at or before t_i, a pair is
emitted exactly when the candidate exists with staleness in [0, step),
and an empty raw sequence yields an empty output. -/
theorem extractPromQLData_refines_spec :
    ∀ (data : List (ℚ × ℚ)) (q : PromQLQuery), tsAscending data →
    0 < q.Step → q.Start ≤ q.End →
    extractPromQLData data q = resampleSpec data q ∧
    extractPromQLData [] q = [] := by
  intro data q hs h1 h2
  exact ⟨extract_eq_resampleSpec data q hs h1 h2, rfl⟩

/-- C1 witness: the spec scenario — raw [(100,5),(105,7)], query
start=100 end=110 step=5. -/
theorem extractPromQLData_refines_spec_witness :
    tsAscending [((100 : ℚ), (5 : ℚ)), (105, 7)] ∧
    (0 : ℚ) < 5 ∧ (100 : ℚ) ≤ 110 ∧
    (extractPromQLData [((100 : ℚ), (5 : ℚ)), (105, 7)]
        { Start := 100, End := 110, Step := 5, Query := "up" } =
      resampleSpec [((100 : ℚ), (5 : ℚ)), (105, 7)]
        { Start := 100, End := 110, Step := 5, Query := "up" } ∧
      extractPromQLData []
        { Start := 100, End := 110, Step := 5, Query := "up" } = []) :=
  ⟨by unfold tsAscending; decide, by norm_num, by norm_num,
    extractPromQLData_refines_spec _ _ (by unfold tsAscending; decide)
      (by norm_num) (by norm_num)⟩

theorem gridFun_fst {data : List (ℚ × ℚ)} {q : PromQLQuery} {i : Nat}
    {p : ℚ × String} (h : gridFun data q i = some p) :
    p.1 = q.Start + (i : ℚ) * q.Step := by
  unfold gridFun at h
  rcases hcand : lastSampleLE data (q.Start + (i : ℚ) * q.Step) with _ | cand
  · simp [hcand] at h
  · simp only [hcand] at h
    by_cases hcond : 0 ≤ q.Start + (i : ℚ) * q.Step - cand.1 ∧
        q.Start + (i : ℚ) * q.Step - cand.1 < q.Step
    · rw [if_pos hcond] at h
      cases Option.some.inj h
      rfl
    · rw [if_neg hcond] at h
      exact Option.noConfusion h

/-! ## Claim C10: resampler output invariants -/

/-- C10: for step > 0, end >= start and ascending raw samples, the
output timestamps are strictly increasing (hence no duplicates), each
is start + i*step for an integer 0 <= i <= floor((end-start)/step), and
the output length is at most floor((end-start)/step) + 1. -/
theorem extractPromQLData_grid_invariants :
    ∀ (data : List (ℚ × ℚ)) (q : PromQLQuery), tsAscending data →
    0 < q.Step → q.Start ≤ q.End →
    ((extractPromQLData data q).map Prod.fst).Pairwise (· < ·) ∧
    ((extractPromQLData data q).map Prod.fst).Nodup ∧
    (∀ p ∈ extractPromQLData data q, ∃ i : ℕ,
      (i : ℤ) ≤ ⌊(q.End - q.Start) / q.Step⌋ ∧
      p.1 = q.Start + (i : ℚ) * q.Step) ∧
    (extractPromQLData data q).length ≤
      (⌊(q.End - q.Start) / q.Step⌋).toNat + 1 := by
  intro data q hs hstep hrange
  rw [extract_eq_resampleSpec data q hs hstep hrange]
  have hpair : (resampleSpec data q).Pairwise
      (fun p p' : ℚ × String => p.1 < p'.1) := by
    unfold resampleSpec
    apply List.Pairwise.filterMap (gridFun data q)
      (fun i j hij p hp p' hp' => ?_) (List.pairwise_lt_range _)
    rw [Option.mem_def] at hp hp'
    rw [gridFun_fst hp, gridFun_fst hp']
    have hcast : (i : ℚ) < (j : ℚ) := by exact_mod_cast hij
    have := mul_lt_mul_of_pos_right hcast hstep
    linarith
  refine ⟨List.pairwise_map.mpr hpair, ?_, ?_, ?_⟩
  · exact List.Pairwise.imp ne_of_lt (List.pairwise_map.mpr hpair)
  · intro p hp
    unfold resampleSpec at hp
    rw [List.mem_filterMap] at hp
    obtain ⟨i, hi, hgi⟩ := hp
    rw [List.mem_range] at hi
    refine ⟨i, ?_, gridFun_fst hgi⟩
    have hD : (0 : ℚ) ≤ (q.End - q.Start) / q.Step :=
      div_nonneg (sub_nonneg.mpr hrange) hstep.le
    have hfl : 0 ≤ ⌊(q.End - q.Start) / q.Step⌋ := Int.floor_nonneg.mpr hD
    unfold gridCount at hi
    omega
  · calc (resampleSpec data q).length
        ≤ (List.range (gridCount q)).length :=
          List.length_filterMap_le _ _
      _ = (⌊(q.End - q.Start) / q.Step⌋).toNat + 1 := by
          rw [List.length_range]; rfl

/-- C10 witness: the concrete scenario raw [(100,5),(105,7)],
start=100 end=110 step=5. -/
theorem extractPromQLData_grid_invariants_witness :
    tsAscending [((100 : ℚ), (5 : ℚ)), (105, 7)] ∧
    (0 : ℚ) < 5 ∧ (100 : ℚ) ≤ 110 ∧
    (((extractPromQLData [((100 : ℚ), (5 : ℚ)), (105, 7)]
        { Start := 100, End := 110, Step := 5, Query := "up" }).map
          Prod.fst).Pairwise (· < ·) ∧
    ((extractPromQLData [((100 : ℚ), (5 : ℚ)), (105, 7)]
        { Start := 100, End := 110, Step := 5, Query := "up" }).map
          Prod.fst).Nodup ∧
    (∀ p ∈ extractPromQLData [((100 : ℚ), (5 : ℚ)), (105, 7)]
        { Start := 100, End := 110, Step := 5, Query := "up" },
      ∃ i : ℕ, (i : ℤ) ≤ ⌊(((110 : ℚ) - 100) / 5 : ℚ)⌋ ∧
        p.1 = (100 : ℚ) + (i : ℚ) * 5) ∧
    (extractPromQLData [((100 : ℚ), (5 : ℚ)), (105, 7)]
        { Start := 100, End := 110, Step := 5, Query := "up" }).length ≤
      (⌊(((110 : ℚ) - 100) / 5 : ℚ)⌋).toNat + 1) :=
  ⟨by unfold tsAscending; decide, by norm_num, by norm_num,
    extractPromQLData_grid_invariants _ _ (by unfold tsAscending; decide)
      (by norm_num) (by norm_num)⟩

/-! ## Claim C8: a single sample before the window -/

/-- C8: for step > 0 and end >= start, one raw sample at T < start
resamples to nothing when start - T >= step, and otherwise to exactly
one point whose grid timestamp is start. -/
theorem extractPromQLData_single_early_sample :
    ∀ (q : PromQLQuery) (T v : ℚ), 0 < q.Step → q.Start ≤ q.End →
    T < q.Start →
    extractPromQLData [(T, v)] q =
      (if q.Step ≤ q.Start - T then []
       else [(q.Start, floatToString v)]) := by
  intro q T v hstep hrange hT
  have hs : tsAscending [(T, v)] := by
    unfold tsAscending
    exact List.pairwise_singleton _ _
  rw [extract_eq_resampleSpec _ _ hs hstep hrange]
  have hone : ∀ i : ℕ, lastSampleLE [(T, v)] (q.Start + (i : ℚ) * q.Step) =
      some (T, v) := by
    intro i
    have hle : T ≤ q.Start + (i : ℚ) * q.Step := by
      have h0 : (0 : ℚ) ≤ (i : ℚ) * q.Step :=
        mul_nonneg (Nat.cast_nonneg i) hstep.le
      linarith
    unfold lastSampleLE
    rw [List.filter_cons, if_pos (by simpa using hle)]
    rfl
  have hg : ∀ i : ℕ, gridFun [(T, v)] q i =
      (if 0 ≤ q.Start + (i : ℚ) * q.Step - T ∧
          q.Start + (i : ℚ) * q.Step - T < q.Step then
        some (q.Start + (i : ℚ) * q.Step, floatToString v)
      else none) := by
    intro i
    simp only [gridFun, hone i]
  by_cases hcase : q.Step ≤ q.Start - T
  · rw [if_pos hcase]
    unfold resampleSpec
    apply List.filterMap_eq_nil_iff.mpr
    intro i _
    rw [hg i, if_neg]
    rintro ⟨hc1, hc2⟩
    have h0 : (0 : ℚ) ≤ (i : ℚ) * q.Step :=
      mul_nonneg (Nat.cast_nonneg i) hstep.le
    linarith
  · rw [if_neg hcase]
    have hlt : q.Start - T < q.Step := not_le.mp hcase
    unfold resampleSpec gridCount
    rw [List.range_succ_eq_map, List.filterMap_cons]
    have hg0 : gridFun [(T, v)] q 0 = some (q.Start, floatToString v) := by
      rw [hg 0]
      have e0 : q.Start + ((0 : ℕ) : ℚ) * q.Step = q.Start := by
        push_cast; ring
      rw [e0, if_pos ⟨by linarith, by linarith⟩]
    simp only [hg0]
    rw [List.filterMap_map]
    have htail : List.filterMap (gridFun [(T, v)] q ∘ Nat.succ)
        (List.range (⌊(q.End - q.Start) / q.Step⌋).toNat) = [] := by
      apply List.filterMap_eq_nil_iff.mpr
      intro i _
      show gridFun [(T, v)] q (i + 1) = none
      rw [hg (i + 1), if_neg]
      rintro ⟨hc1, hc2⟩
      have hcast : ((i + 1 : ℕ) : ℚ) = (i : ℚ) + 1 := by push_cast; ring
      rw [hcast] at hc2
      have h0 : (0 : ℚ) ≤ (i : ℚ) * q.Step :=
        mul_nonneg (Nat.cast_nonneg i) hstep.le
      have hexp : ((i : ℚ) + 1) * q.Step = (i : ℚ) * q.Step + q.Step := by
        ring
      rw [hexp] at hc2
      linarith
    rw [htail]

/-- C8 witness: sample at 98, start 100, step 5 — kept, at grid
timestamp 100. -/
theorem extractPromQLData_single_early_sample_witness :
    (0 : ℚ) < 5 ∧ (100 : ℚ) ≤ 110 ∧ (98 : ℚ) < 100 ∧
    extractPromQLData [((98 : ℚ), (3 : ℚ))]
        { Start := 100, End := 110, Step := 5, Query := "up" } =
      (if (5 : ℚ) ≤ (100 : ℚ) - 98 then []
       else [((100 : ℚ), floatToString 3)]) :=
  ⟨by norm_num, by norm_num, by norm_num,
    extractPromQLData_single_early_sample
      { Start := 100, End := 110, Step := 5, Query := "up" } 98 3
      (by norm_num) (by norm_num) (by norm_num)⟩
